import Mathlib

/-!
Verification development for the BoltFaucet voucher bot (`app.py`).

The Python source is shallowly embedded: strings become `List Char`
(ASCII fragment), the SQLite tables become lists of records, the
uniqueness constraints of the schema become an explicit `SqlErr` error,
and the nondeterministic inputs of the program (the random draw, the
random bonus pick, `time.time_ns()`, and the upstream HTTP responses)
become explicit parameters.
-/

set_option maxRecDepth 4000

namespace BoltFaucet

/-- Characters of a Python string, modelled as a list of `Char`. -/
abbrev Str := List Char

/-- Digit characters. -/
def isDigitB (c : Char) : Bool := decide ('0' ≤ c) && decide (c ≤ '9')

/-- Uppercase ASCII letters. -/
def isUpperB (c : Char) : Bool := decide ('A' ≤ c) && decide (c ≤ 'Z')

/-- Lowercase ASCII letters. -/
def isLowerB (c : Char) : Bool := decide ('a' ≤ c) && decide (c ≤ 'z')

/-- The character class of the source pattern fragment for code payloads:
digits and uppercase letters. -/
def isClassB (c : Char) : Bool := isDigitB c || isUpperB c

/-- ASCII word characters, as used by the pattern boundary marker. -/
def isWordB (c : Char) : Bool := isDigitB c || isUpperB c || isLowerB c || c == '_'

/-- ASCII whitespace stripped by the source. -/
def isSpaceB (c : Char) : Bool :=
  c == ' ' || c == '\t' || c == '\n' || c == '\r' || c == '\x0b' || c == '\x0c'

/-- Model of the Python `str.strip()` call on ASCII text. -/
def stripStr (s : Str) : Str :=
  ((s.dropWhile isSpaceB).reverse.dropWhile isSpaceB).reverse

/-- Worker for `splitlines`. -/
def splitlinesGo : Str → Str → List Str
  | [], acc => if acc.isEmpty then [] else [acc.reverse]
  | '\r' :: '\n' :: rest, acc => acc.reverse :: splitlinesGo rest []
  | c :: rest, acc =>
    if c == '\n' || c == '\r' || c == '\x0b' || c == '\x0c' then
      acc.reverse :: splitlinesGo rest []
    else
      splitlinesGo rest (c :: acc)

/-- Model of the Python `str.splitlines()` call on ASCII text. -/
def splitlines (s : Str) : List Str := splitlinesGo s []

/-- The literal code marker used throughout the source. -/
def LNURLmark : Str := "LNURL".toList

/-- A full match of the anchored source pattern core:
the literal marker followed by one or more payload-class characters. -/
def lnurlCore (t : Str) : Bool :=
  LNURLmark.isPrefixOf t && !(t.drop 5).isEmpty && (t.drop 5).all isClassB

/-- Full match of the anchored pattern, as the Python matcher sees it:
the end anchor also matches just before a single trailing newline. -/
def reFullMatchLNURL (s : Str) : Bool :=
  lnurlCore s || (s.getLast? == some '\n' && lnurlCore s.dropLast)

/-- Substring containment test, the model of the Python `in` operator. -/
def containsSub (pat : Str) : Str → Bool
  | [] => pat.isEmpty
  | c :: rest => pat.isPrefixOf (c :: rest) || containsSub pat rest

/-- Does the (stripped) upstream text contain markup or script markers? -/
def hasHtmlMarkers (t : Str) : Bool :=
  let low := t.map Char.toLower
  containsSub ("<html".toList) low || containsSub ("<body".toList) low ||
    containsSub ("<script".toList) low

/-- The whole-text scan used in markup mode: the boundary-delimited
pattern of the marker followed by at least fifty payload-class
characters, found left to right without overlap, exactly as the Python
pattern matcher does on the uppercased text.  The boolean argument
records whether the previous character was a word character. -/
def scanFind : Str → Bool → List Str
  | [], _ => []
  | c :: rest, prevWord =>
    if !prevWord && LNURLmark.isPrefixOf (c :: rest) then
      if 50 ≤ (((c :: rest).drop 5).takeWhile isClassB).length &&
          ((((c :: rest).drop 5).dropWhile isClassB).isEmpty ||
            !(isWordB ((((c :: rest).drop 5).dropWhile isClassB).headD ' '))) then
        (LNURLmark ++ ((c :: rest).drop 5).takeWhile isClassB) ::
          scanFind (((c :: rest).drop 5).dropWhile isClassB) true
      else
        scanFind rest (isWordB c)
    else
      scanFind rest (isWordB c)
  termination_by s _ => s.length
  decreasing_by
    · have hd : (((c :: rest).drop 5).dropWhile isClassB).length ≤
          ((c :: rest).drop 5).length := (List.dropWhile_sublist isClassB).length_le
      simp only [List.length_drop, List.length_cons] at hd ⊢
      omega
    · simp
    · simp

/-- Line mode: a stripped line is accepted when it literally begins with
the uppercase marker and its uppercasing fully matches the pattern; the
accepted value is the uppercased line. -/
def acceptLine (raw : Str) : Option Str :=
  let line := stripStr raw
  if LNURLmark.isPrefixOf line && reFullMatchLNURL (line.map Char.toUpper) then
    some (line.map Char.toUpper)
  else
    none

/-- Worker for first-seen deduplication: `seen` holds the values already
emitted. -/
def dedupFirstAux {α : Type} [DecidableEq α] : List α → List α → List α
  | [], _ => []
  | x :: xs, seen =>
    if x ∈ seen then dedupFirstAux xs seen else x :: dedupFirstAux xs (x :: seen)

/-- Deduplicate keeping the first occurrence of each value, in order. -/
def dedupFirst {α : Type} [DecidableEq α] (l : List α) : List α := dedupFirstAux l []

/-- The final validation pass of the extractor: total length at least
fifty and a full pattern match. -/
def validFinal (l : Str) : Bool := 50 ≤ l.length && reFullMatchLNURL l

/-- The mode-dependent candidate list of the extractor: in markup mode
the whole-text scan over the uppercased stripped text, otherwise the
accepted lines. -/
def extractCandidates (input : Str) : List Str :=
  if hasHtmlMarkers (stripStr input) then scanFind ((stripStr input).map Char.toUpper) false
  else (splitlines (stripStr input)).filterMap acceptLine

/-- Model of `extract_lnurls_from_response`: strip, choose markup mode or
line mode, validate, and deduplicate preserving first-seen order. -/
def extract_lnurls_from_response (input : Str) : List Str :=
  dedupFirst ((extractCandidates input).filter validFinal)

/-! ## The inventory store -/

/-- One row of the `vouchers` table. -/
structure VoucherRow where
  lnurl : Str
  link_id : Str
  assigned_to : Option Str
  bonus : Bool
deriving DecidableEq, Repr

/-- One row of the `lucky_wins` table. -/
structure LuckyWin where
  chat_id : Str
  username : Str
  amount : Nat
deriving DecidableEq, Repr

/-- The persistent store: both tables, rows in rowid order. -/
structure DB where
  vouchers : List VoucherRow
  lucky_wins : List LuckyWin
deriving DecidableEq, Repr

/-- Errors the store can raise; the schema declares the `lnurl` and
`assigned_to` columns unique. -/
inductive SqlErr where
  | integrityError
deriving DecidableEq, Repr

/-- The startup configuration relevant to the claims. -/
structure Config where
  luckyEnabled : Bool
  luckyChance : ℚ
  luckyAmount : Nat
  batchSize : Nat
deriving DecidableEq, Repr

/-- The case-insensitive prefix filter of the SQL pattern on `lnurl`. -/
def likeLNURL (s : Str) : Bool :=
  "lnurl".toList.isPrefixOf (s.map Char.toLower)

/-- Predicate of the normal-claim selection: unassigned, not bonus, and
carrying the code prefix. -/
def freeNormalP (r : VoucherRow) : Bool :=
  r.assigned_to == none && !r.bonus && likeLNURL r.lnurl

/-- Predicate of the bonus selection: unassigned, bonus, and carrying
the code prefix. -/
def freeBonusP (r : VoucherRow) : Bool :=
  r.assigned_to == none && r.bonus && likeLNURL r.lnurl

/-- The first unassigned normal row, as the source selection returns. -/
def selectNormal (db : DB) : Option VoucherRow := db.vouchers.find? freeNormalP

/-- The rows eligible for the random bonus selection. -/
def eligibleBonus (db : DB) : List VoucherRow := db.vouchers.filter freeBonusP

/-- The free normal stock count of the supply check. -/
def countFreeNormal (db : DB) : Nat := (db.vouchers.filter freeNormalP).length

/-- The free bonus stock count of the supply check. -/
def countFreeBonus (db : DB) : Nat := (eligibleBonus db).length

/-- The used normal count of the reporting query. -/
def countUsedNormal (db : DB) : Nat :=
  (db.vouchers.filter (fun r => !(r.assigned_to == none) && !r.bonus && likeLNURL r.lnurl)).length

/-- The used bonus count of the reporting query. -/
def countUsedBonus (db : DB) : Nat :=
  (db.vouchers.filter (fun r => !(r.assigned_to == none) && r.bonus && likeLNURL r.lnurl)).length

/-- Model of `has_received`: does any row carry exactly this tag? -/
def hasReceived (db : DB) (chatId : Str) : Bool :=
  db.vouchers.any (fun r => r.assigned_to == some chatId)

/-- Is a code already present in the store? -/
def presentCode (db : DB) (l : Str) : Bool := db.vouchers.any (fun r => r.lnurl == l)

/-- How many rows carry a given code. -/
def codeCount (db : DB) (c : Str) : Nat := db.vouchers.countP (fun r => r.lnurl == c)

/-- One insert, honouring the unique `lnurl` column: a duplicate insert
is rejected by the store, which the source absorbs silently. -/
def insertVoucher (l linkId : Str) (bonus : Bool) (db : DB) : DB × Bool :=
  if presentCode db l then (db, false)
  else ({ db with vouchers := db.vouchers ++ [⟨l, linkId, none, bonus⟩] }, true)

/-- Model of `save_lnurls_to_db` (and of the lucky variant when `bonus`
is set): insert each code, silently skipping duplicates, and count the
rows actually inserted. -/
def saveLnurls (bonus : Bool) (lnurls : List Str) (linkId : Str) (db : DB) : DB × Nat :=
  match lnurls with
  | [] => (db, 0)
  | l :: rest =>
    let step := insertVoucher l linkId bonus db
    let next := saveLnurls bonus rest linkId step.1
    (next.1, (if step.2 then 1 else 0) + next.2)

/-- The pointwise effect of the assignment update on the store. -/
def applyAssign (l tag : Str) (db : DB) : DB :=
  { db with vouchers :=
      db.vouchers.map (fun r => if r.lnurl == l then { r with assigned_to := some tag } else r) }

/-- Model of the `UPDATE vouchers SET assigned_to = ...` statement.  The
store rejects the write when the tag already sits on a different row, or
when two rows share the target code and would both receive the tag. -/
def updateAssign (l tag : Str) (db : DB) : Except SqlErr DB :=
  if db.vouchers.any (fun r => !(r.lnurl == l) && r.assigned_to == some tag)
      || decide (2 ≤ db.vouchers.countP (fun r => r.lnurl == l)) then
    .error .integrityError
  else
    .ok (applyAssign l tag db)

/-- Model of `record_lucky_win`: append one audit row. -/
def recordLuckyWin (chatId username : Str) (amount : Nat) (db : DB) : DB :=
  { db with lucky_wins := db.lucky_wins ++ [⟨chatId, username, amount⟩] }

/-! ## Replenishment -/

/-- Model of `create_voucher_group` followed by `fetch_and_store_lnurls`.
The upstream is a parameter: `none` when the batch creation or the CSV
fetch fails, otherwise the new link id and the raw export body.  Codes
are extracted and inserted as normal stock; nothing happens when the
extraction is empty. -/
def createVoucherGroup (up : Option (Str × Str)) (db : DB) : DB :=
  match up with
  | none => db
  | some (linkId, body) =>
    let lnurls := extract_lnurls_from_response body
    if lnurls.isEmpty then db else (saveLnurls false lnurls linkId db).1

/-- Model of `create_lucky_vouchers`: as above but for the bonus pool,
and a no-op when the bonus feature is disabled. -/
def createLuckyVouchers (cfg : Config) (up : Option (Str × Str)) (db : DB) : DB :=
  if !cfg.luckyEnabled then db
  else
    match up with
    | none => db
    | some (linkId, body) =>
      let lnurls := extract_lnurls_from_response body
      if lnurls.isEmpty then db else (saveLnurls true lnurls linkId db).1

/-! ## Allocation -/

/-- The assignment tag: the raw identity, or for admins the identity
with a nanosecond-timestamp suffix. -/
def mkTag (chatId : Str) (isAdmin : Bool) (timeNs : Nat) : Str :=
  if isAdmin then chatId ++ '-' :: Nat.toDigits 10 timeNs else chatId

/-- The marker appended to the tag of a bonus code claimed alongside. -/
def bonusSuffix : Str := "-bonus".toList

/-- The second half of `assign_voucher`, from a selected normal row:
write the assignment, then possibly draw and assign a bonus code.
`rand` is the value of the uniform draw and `bonusPick` resolves the
random bonus row selection. -/
def doAssign (cfg : Config) (row : VoucherRow) (chatId : Str) (isAdmin : Bool)
    (timeNs : Nat) (rand : ℚ) (bonusPick : Nat) (db : DB) :
    Except SqlErr (Option (Str × Str) × Option (Str × Str) × DB) :=
  match updateAssign row.lnurl (mkTag chatId isAdmin timeNs) db with
  | .error e => .error e
  | .ok db2 =>
    if cfg.luckyEnabled && decide (rand < cfg.luckyChance) then
      match (eligibleBonus db2).get? (bonusPick % max (eligibleBonus db2).length 1) with
      | some lrow =>
        match updateAssign lrow.lnurl (mkTag chatId isAdmin timeNs ++ bonusSuffix) db2 with
        | .error e => .error e
        | .ok db3 => .ok (some (row.lnurl, row.link_id), some (lrow.lnurl, lrow.link_id), db3)
      | none => .ok (some (row.lnurl, row.link_id), none, db2)
    else
      .ok (some (row.lnurl, row.link_id), none, db2)

/-- Model of `assign_voucher`.  The second component counts the
synchronous replenisher invocations.  An uncaught store error surfaces
as `Except.error`, exactly as the uncaught exception does in the
source. -/
def assignVoucher (cfg : Config) (upN : Option (Str × Str)) (chatId : Str) (isAdmin : Bool)
    (timeNs : Nat) (rand : ℚ) (bonusPick : Nat) (db : DB) :
    Except SqlErr (Option (Str × Str) × Option (Str × Str) × DB) × Nat :=
  match selectNormal db with
  | some row => (doAssign cfg row chatId isAdmin timeNs rand bonusPick db, 0)
  | none =>
    match selectNormal (createVoucherGroup upN db) with
    | some row =>
      (doAssign cfg row chatId isAdmin timeNs rand bonusPick (createVoucherGroup upN db), 1)
    | none => (.ok (none, none, createVoucherGroup upN db), 1)

/-! ## Delivery, supply check, claim handler -/

/-- Delivery-time validation of `send_voucher`: literal uppercase prefix
and a full pattern match of the uppercased code. -/
def deliveryValid (lnurl : Str) : Bool :=
  LNURLmark.isPrefixOf lnurl && reFullMatchLNURL (lnurl.map Char.toUpper)

/-- Model of `send_voucher`: refuse delivery of a code failing the
format validation; on a delivered bonus code, record the lucky win.
Returns the store and whether the code was actually delivered. -/
def sendVoucher (cfg : Config) (lnurl chatId username : Str) (bonus : Bool) (db : DB) :
    DB × Bool :=
  if !(deliveryValid lnurl) then (db, false)
  else if bonus then (recordLuckyWin chatId username cfg.luckyAmount db, true)
  else (db, true)

/-- The bonus half of `check_voucher_supply`, applied to the store and
normal-replenishment count of the first half. -/
def checkBonusSupply (cfg : Config) (upB : Option (Str × Str)) : DB × Nat → DB × Nat × Nat
  | (db1, n) =>
    if cfg.luckyEnabled then
      if countFreeBonus db1 == 0 then (createLuckyVouchers cfg upB db1, n, 1)
      else (db1, n, 0)
    else (db1, n, 0)

/-- Model of `check_voucher_supply`.  Returns the store and the number
of normal and bonus replenishments triggered. -/
def checkVoucherSupply (cfg : Config) (upN upB : Option (Str × Str)) (db : DB) :
    DB × Nat × Nat :=
  checkBonusSupply cfg upB
    (if countFreeNormal db < max 10 (cfg.batchSize / 10) then (createVoucherGroup upN db, 1)
     else (db, 0))

/-- Outcome of one claim request, as handed to the transport layer. -/
inductive Outcome where
  | alreadyClaimed
  | outOfStock
  | issued (normal : Str × Str) (lucky : Option (Str × Str))
deriving DecidableEq, Repr

/-- The bonus delivery step of `handle_claim`: deliver the bonus code
when one was reserved. -/
def bonusDelivery (cfg : Config) (chatId username : Str) (lucky : Option (Str × Str))
    (db2 : DB) : DB :=
  match lucky with
  | some l => (sendVoucher cfg l.1 chatId username true db2).1
  | none => db2

/-- Model of `handle_claim`, continued: the advisory one-claim check,
the allocation, the two deliveries, and the supply check. -/
def handleClaim (cfg : Config) (upN upB : Option (Str × Str)) (chatId username : Str)
    (isAdmin : Bool) (timeNs : Nat) (rand : ℚ) (bonusPick : Nat) (db : DB) :
    Except SqlErr (Outcome × DB) :=
  if !isAdmin && hasReceived db chatId then .ok (.alreadyClaimed, db)
  else
    match (assignVoucher cfg upN chatId isAdmin timeNs rand bonusPick db).1 with
    | .error e => .error e
    | .ok (some n, lucky, db1) =>
      .ok (.issued n lucky,
        (checkVoucherSupply cfg upN upB
          (bonusDelivery cfg chatId username lucky
            ((sendVoucher cfg n.1 chatId username false db1).1))).1)
    | .ok (none, _, db1) =>
      .ok (.outOfStock, (checkVoucherSupply cfg upN upB db1).1)

/-- Model of `clean_database`: delete the rows whose code fails the
format validation; count the deletions. -/
def cleanDatabase (db : DB) : DB × Nat :=
  ({ db with vouchers := db.vouchers.filter (fun r => deliveryValid r.lnurl) },
    (db.vouchers.filter (fun r => !(deliveryValid r.lnurl))).length)

/-! ## Spec-side definition for comparison -/

/-- The format rule as the specification words it, written from the
spec and not from the source, for comparison with the extractor: a
case-insensitive prefix match followed by an alphanumeric payload of at
least the minimum length. -/
def specFormatRule (s : Str) : Bool :=
  "lnurl".toList.isPrefixOf (s.map Char.toLower) &&
    decide (50 ≤ (s.drop 5).length) &&
    (s.drop 5).all (fun c => isDigitB c || isUpperB c || isLowerB c)

/-! ## Concrete fixtures -/

/-- A well-formed free normal voucher row. -/
def rowNormalFree : VoucherRow := ⟨"LNURLA".toList, "L1".toList, none, false⟩

/-- A row already assigned to the identity 123. -/
def rowAssigned123 : VoucherRow := ⟨"LNURLZ".toList, "L1".toList, some ("123".toList), false⟩

/-- A well-formed free bonus voucher row. -/
def rowBonusFree : VoucherRow := ⟨"LNURLB".toList, "L2".toList, none, true⟩

/-- A bonus row whose code has the prefix but fails full validation. -/
def rowBonusMalformed : VoucherRow := ⟨"LNURL!AAA".toList, "L2".toList, none, true⟩

/-- A normal row whose code has the prefix but fails full validation. -/
def rowNormalMalformed : VoucherRow := ⟨"LNURL!!!".toList, "L1".toList, none, false⟩

/-- Configuration with the bonus feature disabled. -/
def cfgPlain : Config := ⟨false, 0, 10000, 100⟩

/-- Configuration with the bonus feature enabled at probability one. -/
def cfgLucky : Config := ⟨true, 1, 10000, 100⟩

/-- The empty store. -/
def dbEmpty : DB := ⟨[], []⟩

/-- The racing-second-claim store: identity 123 already holds a code
and a free normal code remains. -/
def dbRace : DB := ⟨[rowAssigned123, rowNormalFree], []⟩

/-- A store with one free normal and one free bonus code. -/
def dbLucky : DB := ⟨[rowNormalFree, rowBonusFree], []⟩

/-- A store whose only bonus code is prefixed but malformed. -/
def dbBadBonus : DB := ⟨[rowNormalFree, rowBonusMalformed], []⟩

/-- A store whose only code is prefixed but malformed. -/
def dbMalformed : DB := ⟨[rowNormalMalformed], []⟩

/-- A single line whose code matches the format rule case-insensitively
but starts with a lowercase prefix. -/
def lineLowercase : Str := "lnurl".toList ++ List.replicate 50 'A'

/-- The store `dbLucky` after identity 7 claims with a bonus hit. -/
def dbLuckyDone : DB :=
  ⟨[⟨"LNURLA".toList, "L1".toList, some ("7".toList), false⟩,
    ⟨"LNURLB".toList, "L2".toList, some ("7-bonus".toList), true⟩], []⟩

/-- The store `dbLucky` after the whole claim handler runs for
identity 7 with a bonus hit: both codes assigned and one audit row. -/
def dbLuckyFinal : DB :=
  ⟨[⟨"LNURLA".toList, "L1".toList, some ("7".toList), false⟩,
    ⟨"LNURLB".toList, "L2".toList, some ("7-bonus".toList), true⟩],
    [⟨"7".toList, "u".toList, 10000⟩]⟩

/-- The store `dbBadBonus` after identity 7 claims with a bonus hit:
the malformed bonus code is reserved, yet no audit row exists. -/
def dbBadBonusDone : DB :=
  ⟨[⟨"LNURLA".toList, "L1".toList, some ("7".toList), false⟩,
    ⟨"LNURL!AAA".toList, "L2".toList, some ("7-bonus".toList), true⟩], []⟩

/-- The store `dbMalformed` after identity 9 claims: the malformed but
prefixed code is reserved. -/
def dbMalformedDone : DB :=
  ⟨[⟨"LNURL!!!".toList, "L1".toList, some ("9".toList), false⟩], []⟩

/-! # Theorems -/

/-- Claim C2 (code bug evidence): on the racing-second-claim state,
where the claimant's tag already sits on another row, the assignment
write is rejected by the unique `assigned_to` column and the allocation
surfaces the raised store error instead of a typed already-claimed
outcome. -/
theorem assign_voucher_raises_on_tag_collision :
    assignVoucher cfgPlain none ("123".toList) false 0 0 0 dbRace =
      (.error .integrityError, 0) := by
  rfl

/-- Helper: a successful `doAssign` always issues the selected normal
row. -/
theorem doAssign_ok_normal (cfg : Config) (row : VoucherRow) (chatId : Str)
    (isAdmin : Bool) (timeNs : Nat) (rand : ℚ) (bonusPick : Nat) (db : DB)
    {n : Option (Str × Str)} {l : Option (Str × Str)} {d : DB}
    (h : doAssign cfg row chatId isAdmin timeNs rand bonusPick db = .ok (n, l, d)) :
    n = some (row.lnurl, row.link_id) := by
  unfold doAssign at h
  cases hu : updateAssign row.lnurl (mkTag chatId isAdmin timeNs) db with
  | error e => rw [hu] at h; exact Except.noConfusion h
  | ok db2 =>
    rw [hu] at h
    dsimp only at h
    by_cases hl : (cfg.luckyEnabled && decide (rand < cfg.luckyChance)) = true
    · rw [if_pos hl] at h
      cases hg : (eligibleBonus db2).get? (bonusPick % max (eligibleBonus db2).length 1) with
      | none =>
        rw [hg] at h
        dsimp only at h
        simp only [Except.ok.injEq, Prod.mk.injEq] at h
        exact h.1.symm
      | some lrow =>
        rw [hg] at h
        dsimp only at h
        cases hu2 : updateAssign lrow.lnurl (mkTag chatId isAdmin timeNs ++ bonusSuffix) db2 with
        | error e2 => rw [hu2] at h; exact Except.noConfusion h
        | ok db3 =>
          rw [hu2] at h
          simp only [Except.ok.injEq, Prod.mk.injEq] at h
          exact h.1.symm
    · rw [if_neg hl] at h
      simp only [Except.ok.injEq, Prod.mk.injEq] at h
      exact h.1.symm

/-- Claim C3: when the first normal-claim attempt finds no unassigned
normal code, the allocator invokes the normal-pool replenisher exactly
once, retries the claim exactly once, and returns the out-of-stock
outcome (no code issued) exactly when the single retry also finds no
unassigned normal code. -/
theorem assign_replenishes_once_then_retries
    (cfg : Config) (upN : Option (Str × Str)) (chatId : Str) (isAdmin : Bool)
    (timeNs : Nat) (rand : ℚ) (bonusPick : Nat) (db : DB)
    (h : selectNormal db = none) :
    (assignVoucher cfg upN chatId isAdmin timeNs rand bonusPick db).2 = 1 ∧
    ((assignVoucher cfg upN chatId isAdmin timeNs rand bonusPick db).1 =
        .ok (none, none, createVoucherGroup upN db) ↔
      selectNormal (createVoucherGroup upN db) = none) := by
  unfold assignVoucher
  rw [h]
  cases h2 : selectNormal (createVoucherGroup upN db) with
  | none => exact ⟨rfl, by simp⟩
  | some row =>
    refine ⟨rfl, ?_⟩
    constructor
    · intro hEq
      have hn := doAssign_ok_normal cfg row chatId isAdmin timeNs rand bonusPick
        (createVoucherGroup upN db) hEq
      exact Option.noConfusion hn
    · intro hEq
      exact Option.noConfusion hEq

/-- Witness for claim C3 at the empty store with a failing upstream. -/
theorem assign_replenishes_once_then_retries_witness :
    selectNormal dbEmpty = none ∧
      (assignVoucher cfgPlain none ("9".toList) false 0 0 0 dbEmpty).2 = 1 ∧
      ((assignVoucher cfgPlain none ("9".toList) false 0 0 0 dbEmpty).1 =
          .ok (none, none, createVoucherGroup none dbEmpty) ↔
        selectNormal (createVoucherGroup none dbEmpty) = none) :=
  ⟨by decide,
    assign_replenishes_once_then_retries cfgPlain none ("9".toList) false 0 0 0 dbEmpty
      (by decide)⟩

/-- Claim C4: a claim by a non-admin identity that already holds an
assignment is answered with the already-claimed outcome and the store
is returned completely unchanged: no code reserved, no tag written, no
audit row created. -/
theorem handle_claim_already_claimed_no_state_change
    (cfg : Config) (upN upB : Option (Str × Str)) (chatId username : Str)
    (timeNs : Nat) (rand : ℚ) (bonusPick : Nat) (db : DB)
    (h : hasReceived db chatId = true) :
    handleClaim cfg upN upB chatId username false timeNs rand bonusPick db =
      .ok (.alreadyClaimed, db) := by
  unfold handleClaim
  simp [h]

/-- Witness for claim C4 on the store where identity 123 already holds
a code. -/
theorem handle_claim_already_claimed_witness :
    hasReceived dbRace ("123".toList) = true ∧
      handleClaim cfgPlain none none ("123".toList) ("u".toList) false 0 0 0 dbRace =
        .ok (.alreadyClaimed, dbRace) :=
  ⟨by decide,
    handle_claim_already_claimed_no_state_change cfgPlain none none ("123".toList)
      ("u".toList) 0 0 0 dbRace (by decide)⟩

/-! ### Insert-if-absent lemmas -/

/-- Presence of a code after one insert. -/
theorem presentCode_insert (l linkId : Str) (b : Bool) (db : DB) (c : Str) :
    presentCode (insertVoucher l linkId b db).1 c = (presentCode db c || (l == c)) := by
  unfold insertVoucher
  split
  · rename_i hp
    by_cases hlc : l = c
    · subst hlc
      simp [hp]
    · simp [beq_eq_false_iff_ne.mpr hlc]
  · simp [presentCode, List.any_append]

/-- Presence of a code after a bulk insert. -/
theorem presentCode_save (b : Bool) (L : List Str) (linkId : Str) (db : DB) (c : Str) :
    presentCode (saveLnurls b L linkId db).1 c = (presentCode db c || decide (c ∈ L)) := by
  induction L generalizing db with
  | nil => simp [saveLnurls]
  | cons l rest ih =>
    simp only [saveLnurls]
    rw [ih, presentCode_insert]
    by_cases hlc : l = c
    · subst hlc
      simp
    · have h1 : (l == c) = false := beq_eq_false_iff_ne.mpr hlc
      have h2 : ¬(c = l) := fun h => hlc h.symm
      simp [h1, h2, List.mem_cons, Bool.or_assoc]

/-- A bulk insert of codes that are all present does nothing and counts
zero. -/
theorem saveLnurls_noop (b : Bool) (L : List Str) (linkId : Str) (db : DB)
    (h : ∀ c ∈ L, presentCode db c = true) :
    saveLnurls b L linkId db = (db, 0) := by
  induction L with
  | nil => rfl
  | cons l rest ih =>
    have hl := h l (List.mem_cons_self l rest)
    simp only [saveLnurls, insertVoucher, hl, if_pos]
    rw [ih (fun c hc => h c (List.mem_cons_of_mem l hc))]
    simp

/-- An absent code occurs zero times. -/
theorem codeCount_eq_zero_of_absent (db : DB) (c : Str)
    (h : presentCode db c = false) : codeCount db c = 0 := by
  rw [codeCount, List.countP_eq_zero]
  intro r hr
  rw [presentCode, List.any_eq_false] at h
  exact h r hr

/-- A bulk insert never adds further copies of a code already
present. -/
theorem codeCount_save_present (b : Bool) (L : List Str) (linkId : Str) (db : DB) (c : Str)
    (hc : presentCode db c = true) :
    codeCount (saveLnurls b L linkId db).1 c = codeCount db c := by
  induction L generalizing db with
  | nil => rfl
  | cons l rest ih =>
    simp only [saveLnurls]
    by_cases hl : presentCode db l = true
    · rw [show insertVoucher l linkId b db = (db, false) by simp [insertVoucher, hl]]
      exact ih db hc
    · have hl' : presentCode db l = false := by simpa using hl
      have hlc : ¬(l == c) = true := by
        intro hbe
        rw [eq_of_beq hbe] at hl'
        rw [hl'] at hc
        exact Bool.false_ne_true hc
      rw [show insertVoucher l linkId b db =
          ({ db with vouchers := db.vouchers ++ [⟨l, linkId, none, b⟩] }, true) by
        simp [insertVoucher, hl']]
      have hpres : presentCode { db with vouchers := db.vouchers ++ [⟨l, linkId, none, b⟩] } c
          = true := by
        simp only [presentCode, List.any_append]
        rw [show (db.vouchers.any (fun r => r.lnurl == c)) = true from hc]
        rfl
      rw [ih _ hpres]
      simp only [codeCount, List.countP_append]
      simp [hlc]

/-- A fresh code inserted in bulk is stored exactly once. -/
theorem codeCount_save_fresh (b : Bool) (L : List Str) (linkId : Str) (db : DB) (c : Str)
    (hc : presentCode db c = false) (hm : c ∈ L) :
    codeCount (saveLnurls b L linkId db).1 c = 1 := by
  induction L generalizing db with
  | nil => cases hm
  | cons l rest ih =>
    simp only [saveLnurls]
    by_cases hlc : l = c
    · subst hlc
      rw [show insertVoucher l linkId b db =
          ({ db with vouchers := db.vouchers ++ [⟨l, linkId, none, b⟩] }, true) by
        simp [insertVoucher, hc]]
      have hpres : presentCode { db with vouchers := db.vouchers ++ [⟨l, linkId, none, b⟩] } l
          = true := by
        simp [presentCode, List.any_append]
      rw [codeCount_save_present b rest linkId _ l hpres]
      have h0 := codeCount_eq_zero_of_absent db l hc
      rw [codeCount] at h0
      simp only [codeCount, List.countP_append, h0]
      simp
    · have hm' : c ∈ rest := by
        cases hm with
        | head => exact absurd rfl hlc
        | tail _ h => exact h
      by_cases hl : presentCode db l = true
      · rw [show insertVoucher l linkId b db = (db, false) by simp [insertVoucher, hl]]
        exact ih db hc hm'
      · have hl' : presentCode db l = false := by simpa using hl
        rw [show insertVoucher l linkId b db =
            ({ db with vouchers := db.vouchers ++ [⟨l, linkId, none, b⟩] }, true) by
          simp [insertVoucher, hl']]
        have hab : presentCode { db with vouchers := db.vouchers ++ [⟨l, linkId, none, b⟩] } c
            = false := by
          simp only [presentCode, List.any_append]
          rw [show (db.vouchers.any (fun r => r.lnurl == c)) = false from hc]
          simp [beq_eq_false_iff_ne.mpr hlc]
        exact ih _ hab hm'

/-- Claim C6: bulk ingestion is idempotent and reports its work: after
inserting a list of fresh codes, a second identical call inserts
nothing, reports zero, and each code ends up stored exactly once. -/
theorem save_lnurls_idempotent (L : List Str) (linkId : Str) (db : DB)
    (hfresh : ∀ c ∈ L, presentCode db c = false) :
    (saveLnurls false L linkId (saveLnurls false L linkId db).1).2 = 0 ∧
    (saveLnurls false L linkId (saveLnurls false L linkId db).1).1 =
      (saveLnurls false L linkId db).1 ∧
    ∀ c ∈ L, codeCount (saveLnurls false L linkId db).1 c = 1 := by
  have hpres : ∀ c ∈ L, presentCode (saveLnurls false L linkId db).1 c = true := by
    intro c hc
    rw [presentCode_save]
    have hd : decide (c ∈ L) = true := by simp [hc]
    rw [hd]
    simp
  have hnoop := saveLnurls_noop false L linkId _ hpres
  refine ⟨?_, ?_, ?_⟩
  · rw [hnoop]
  · rw [hnoop]
  · intro c hc
    exact codeCount_save_fresh false L linkId db c (hfresh c hc) hc

/-- Witness for claim C6 on two fresh codes over the empty store. -/
theorem save_lnurls_idempotent_witness :
    (saveLnurls false ["LNURLA".toList, "LNURLB".toList] ("L1".toList)
        (saveLnurls false ["LNURLA".toList, "LNURLB".toList] ("L1".toList) dbEmpty).1).2 = 0 ∧
    codeCount (saveLnurls false ["LNURLA".toList, "LNURLB".toList] ("L1".toList) dbEmpty).1
        ("LNURLA".toList) = 1 :=
  ⟨(save_lnurls_idempotent ["LNURLA".toList, "LNURLB".toList] ("L1".toList) dbEmpty
      (by decide)).1,
    (save_lnurls_idempotent ["LNURLA".toList, "LNURLB".toList] ("L1".toList) dbEmpty
      (by decide)).2.2 ("LNURLA".toList) (by simp)⟩

/-! ### Supply-check lemmas -/

/-- Inserting a normal row leaves the bonus pool untouched. -/
theorem eligibleBonus_insert_false (l linkId : Str) (db : DB) :
    eligibleBonus (insertVoucher l linkId false db).1 = eligibleBonus db := by
  unfold insertVoucher
  split
  · rfl
  · simp [eligibleBonus, List.filter_append, freeBonusP]

/-- Bulk-inserting normal rows leaves the bonus pool untouched. -/
theorem eligibleBonus_save_false (L : List Str) (linkId : Str) (db : DB) :
    eligibleBonus (saveLnurls false L linkId db).1 = eligibleBonus db := by
  induction L generalizing db with
  | nil => rfl
  | cons l rest ih =>
    simp only [saveLnurls]
    rw [ih, eligibleBonus_insert_false]

/-- Normal-pool replenishment leaves the bonus pool untouched. -/
theorem eligibleBonus_createVoucherGroup (up : Option (Str × Str)) (db : DB) :
    eligibleBonus (createVoucherGroup up db) = eligibleBonus db := by
  cases up with
  | none => rfl
  | some p =>
    simp only [createVoucherGroup]
    split
    · rfl
    · rw [eligibleBonus_save_false]

/-- Normal-pool replenishment leaves the free bonus count untouched. -/
theorem countFreeBonus_createVoucherGroup (up : Option (Str × Str)) (db : DB) :
    countFreeBonus (createVoucherGroup up db) = countFreeBonus db := by
  unfold countFreeBonus
  rw [eligibleBonus_createVoucherGroup]

/-- Claim C8: the supply check triggers exactly one normal-pool
replenishment precisely when the free normal count is strictly below
the larger of ten and a tenth of the batch size, and, with the bonus
feature enabled, exactly one bonus-pool replenishment precisely when
the free bonus count is zero. -/
theorem check_supply_thresholds (cfg : Config) (upN upB : Option (Str × Str)) (db : DB) :
    ((checkVoucherSupply cfg upN upB db).2.1 =
      if countFreeNormal db < max 10 (cfg.batchSize / 10) then 1 else 0) ∧
    (cfg.luckyEnabled = true →
      ((checkVoucherSupply cfg upN upB db).2.2 = 1 ↔ countFreeBonus db = 0)) ∧
    (cfg.luckyEnabled = false → (checkVoucherSupply cfg upN upB db).2.2 = 0) := by
  unfold checkVoucherSupply checkBonusSupply
  by_cases hn : countFreeNormal db < max 10 (cfg.batchSize / 10)
  · rw [if_pos hn]
    dsimp only
    rw [countFreeBonus_createVoucherGroup]
    by_cases he : cfg.luckyEnabled = true
    · rw [if_pos he]
      by_cases hz : countFreeBonus db = 0
      · rw [if_pos (by simp [hz])]
        exact ⟨by simp [hn], fun _ => by simp [hz], fun hfe => absurd he (by simp [hfe])⟩
      · rw [if_neg (by simp [hz])]
        exact ⟨by simp [hn], fun _ => by simp [hz], fun hfe => absurd he (by simp [hfe])⟩
    · rw [if_neg he]
      exact ⟨by simp [hn], fun h1 => absurd h1 he, fun _ => rfl⟩
  · rw [if_neg hn]
    dsimp only
    by_cases he : cfg.luckyEnabled = true
    · rw [if_pos he]
      by_cases hz : countFreeBonus db = 0
      · rw [if_pos (by simp [hz])]
        exact ⟨by simp [hn], fun _ => by simp [hz], fun hfe => absurd he (by simp [hfe])⟩
      · rw [if_neg (by simp [hz])]
        exact ⟨by simp [hn], fun _ => by simp [hz], fun hfe => absurd he (by simp [hfe])⟩
    · rw [if_neg he]
      exact ⟨by simp [hn], fun h1 => absurd h1 he, fun _ => rfl⟩

/-- Witness for claim C8 on the empty store with the bonus feature
enabled: both pools are below their floors, so both replenish once. -/
theorem check_supply_thresholds_witness :
    (checkVoucherSupply cfgLucky none none dbEmpty).2.1 = 1 ∧
    (checkVoucherSupply cfgLucky none none dbEmpty).2.2 = 1 := by
  have h := check_supply_thresholds cfgLucky none none dbEmpty
  refine ⟨?_, ?_⟩
  · rw [h.1]
    decide
  · exact (h.2.1 (by decide)).mpr (by decide)

/-! ### Bonus-draw lemmas -/

/-- Two members satisfying a predicate that counts at most once are
equal. -/
theorem eq_of_mem_of_countP_le_one {α : Type} {p : α → Bool} {v : List α}
    (h : v.countP p ≤ 1) {a b : α} (ha : a ∈ v) (hpa : p a = true)
    (hb : b ∈ v) (hpb : p b = true) : a = b := by
  have ha' : a ∈ v.filter p := List.mem_filter.mpr ⟨ha, hpa⟩
  have hb' : b ∈ v.filter p := List.mem_filter.mpr ⟨hb, hpb⟩
  have hlen : (v.filter p).length ≤ 1 := by
    rw [← List.countP_eq_length_filter]
    exact h
  cases hf : v.filter p with
  | nil =>
    rw [hf] at ha'
    cases ha'
  | cons x rest =>
    cases rest with
    | nil =>
      rw [hf] at ha' hb'
      simp only [List.mem_singleton] at ha' hb'
      rw [ha', hb']
    | cons y rest2 =>
      rw [hf] at hlen
      simp at hlen

/-- Elimination of a successful `updateAssign`: the result is the
pointwise update, and the target code was on at most one row. -/
theorem updateAssign_ok_elim (l tag : Str) (db db2 : DB)
    (h : updateAssign l tag db = .ok db2) :
    db2 = applyAssign l tag db ∧
    db.vouchers.countP (fun r => r.lnurl == l) ≤ 1 := by
  unfold updateAssign at h
  split at h
  · exact Except.noConfusion h
  · rename_i hcond
    refine ⟨?_, ?_⟩
    · injection h with h1
      exact h1.symm
    · simp only [Bool.or_eq_true, not_or, decide_eq_true_eq] at hcond
      omega

/-- Updating rows that are all non-bonus does not change the bonus
pool. -/
theorem filter_freeBonusP_map (l tag : Str) (v : List VoucherRow)
    (hb : ∀ r ∈ v, r.lnurl = l → r.bonus = false) :
    (v.map (fun r => if r.lnurl == l then { r with assigned_to := some tag } else r)).filter
        freeBonusP = v.filter freeBonusP := by
  induction v with
  | nil => rfl
  | cons r rest ih =>
    simp only [List.map_cons, List.filter_cons]
    by_cases hr : (r.lnurl == l) = true
    · rw [if_pos hr]
      have hbf : r.bonus = false := hb r (List.mem_cons_self r rest) (eq_of_beq hr)
      have h1 : freeBonusP { r with assigned_to := some tag } = false := by
        simp [freeBonusP, hbf]
      have h2 : freeBonusP r = false := by
        simp [freeBonusP, hbf]
      rw [h1, h2]
      simp only [Bool.false_eq_true, if_false]
      exact ih (fun r' hr' => hb r' (List.mem_cons_of_mem r hr'))
    · rw [if_neg hr]
      rw [ih (fun r' hr' => hb r' (List.mem_cons_of_mem r hr'))]

/-- A successful normal assignment never changes the bonus pool: the
selected row is a normal row and, by the unique code column, the only
row carrying its code. -/
theorem eligibleBonus_after_normal_update (row : VoucherRow) (tag : Str) (db db2 : DB)
    (hsel : selectNormal db = some row)
    (hu : updateAssign row.lnurl tag db = .ok db2) :
    eligibleBonus db2 = eligibleBonus db := by
  have hupd := updateAssign_ok_elim row.lnurl tag db db2 hu
  have hrow_mem : row ∈ db.vouchers := List.mem_of_find?_eq_some hsel
  have hrowp : freeNormalP row = true := List.find?_some hsel
  have hrowb : row.bonus = false := by
    simp only [freeNormalP, Bool.and_eq_true, Bool.not_eq_true'] at hrowp
    exact hrowp.1.2
  have hbonus : ∀ r ∈ db.vouchers, r.lnurl = row.lnurl → r.bonus = false := by
    intro r hr hrl
    have heq : r = row := eq_of_mem_of_countP_le_one hupd.2 hr (by simp [hrl])
      hrow_mem (by simp)
    rw [heq]
    exact hrowb
  rw [hupd.1]
  unfold eligibleBonus applyAssign
  exact filter_freeBonusP_map row.lnurl tag db.vouchers hbonus

/-- A successful `doAssign` under a hitting draw with nonempty bonus
stock reserves a bonus code. -/
theorem doAssign_lucky_isSome (cfg : Config) (row : VoucherRow) (chatId : Str)
    (isAdmin : Bool) (timeNs : Nat) (rand : ℚ) (bonusPick : Nat) (db : DB)
    {n l : Option (Str × Str)} {d : DB}
    (hsel : selectNormal db = some row)
    (h : doAssign cfg row chatId isAdmin timeNs rand bonusPick db = .ok (n, l, d))
    (he : cfg.luckyEnabled = true) (hhit : decide (rand < cfg.luckyChance) = true)
    (hne : eligibleBonus db ≠ []) : l.isSome = true := by
  unfold doAssign at h
  cases hu : updateAssign row.lnurl (mkTag chatId isAdmin timeNs) db with
  | error e => rw [hu] at h; exact Except.noConfusion h
  | ok db2 =>
    rw [hu] at h
    dsimp only at h
    have hcond : (cfg.luckyEnabled && decide (rand < cfg.luckyChance)) = true := by
      rw [he, hhit]
      rfl
    rw [if_pos hcond] at h
    have helig : eligibleBonus db2 = eligibleBonus db :=
      eligibleBonus_after_normal_update row (mkTag chatId isAdmin timeNs) db db2 hsel hu
    rw [helig] at h
    have hlen : 0 < (eligibleBonus db).length := List.length_pos.mpr hne
    have hmax : max (eligibleBonus db).length 1 = (eligibleBonus db).length :=
      max_eq_left hlen
    rw [hmax] at h
    have hidx : bonusPick % (eligibleBonus db).length < (eligibleBonus db).length :=
      Nat.mod_lt _ hlen
    cases hg : (eligibleBonus db).get? (bonusPick % (eligibleBonus db).length) with
    | none =>
      rw [List.get?_eq_none] at hg
      omega
    | some lrow =>
      rw [hg] at h
      dsimp only at h
      cases hu2 : updateAssign lrow.lnurl
          (mkTag chatId isAdmin timeNs ++ bonusSuffix) db2 with
      | error e2 => rw [hu2] at h; exact Except.noConfusion h
      | ok db3 =>
        rw [hu2] at h
        simp only [Except.ok.injEq, Prod.mk.injEq] at h
        rw [← h.2.1]
        rfl

/-- A missing draw leaves the bonus side empty on a successful
`doAssign`. -/
theorem doAssign_lucky_none_of_nohit (cfg : Config) (row : VoucherRow) (chatId : Str)
    (isAdmin : Bool) (timeNs : Nat) (rand : ℚ) (bonusPick : Nat) (db : DB)
    {n l : Option (Str × Str)} {d : DB}
    (hnohit : (cfg.luckyEnabled && decide (rand < cfg.luckyChance)) = false)
    (h : doAssign cfg row chatId isAdmin timeNs rand bonusPick db = .ok (n, l, d)) :
    l = none := by
  unfold doAssign at h
  cases hu : updateAssign row.lnurl (mkTag chatId isAdmin timeNs) db with
  | error e => rw [hu] at h; exact Except.noConfusion h
  | ok db2 =>
    rw [hu] at h
    dsimp only at h
    rw [if_neg (by rw [hnohit]; exact Bool.false_ne_true)] at h
    simp only [Except.ok.injEq, Prod.mk.injEq] at h
    exact h.2.1.symm

/-- Claim C7: for every successful claim, with the configured
probability at zero the allocation never reserves a bonus code; with
probability one, bonus enabled, and nonempty bonus stock, every
successful allocation that issues a normal code also reserves a bonus
code; and a hitting draw over an empty bonus pool silently issues the
normal code alone, with no error and no bonus.  Success of a claim is
taken as the claim operation returning its outcome, which is how the
claim words it. -/
theorem bonus_draw_probability_bounds (cfg : Config) (upN : Option (Str × Str))
    (chatId : Str) (isAdmin : Bool) (timeNs : Nat) (rand : ℚ) (bonusPick : Nat) (db : DB)
    (hr0 : 0 ≤ rand) (hr1 : rand < 1) :
    (∀ n l d, cfg.luckyChance = 0 →
      (assignVoucher cfg upN chatId isAdmin timeNs rand bonusPick db).1 = .ok (n, l, d) →
      l = none) ∧
    (∀ np l d, cfg.luckyEnabled = true → cfg.luckyChance = 1 →
      eligibleBonus db ≠ [] →
      (assignVoucher cfg upN chatId isAdmin timeNs rand bonusPick db).1 =
        .ok (some np, l, d) →
      l.isSome = true) ∧
    (∀ row db2, cfg.luckyEnabled = true → decide (rand < cfg.luckyChance) = true →
      eligibleBonus db = [] → selectNormal db = some row →
      updateAssign row.lnurl (mkTag chatId isAdmin timeNs) db = .ok db2 →
      (assignVoucher cfg upN chatId isAdmin timeNs rand bonusPick db).1 =
        .ok (some (row.lnurl, row.link_id), none, db2)) := by
  refine ⟨?_, ?_, ?_⟩
  · intro n l d hzero hok
    have hnohit : (cfg.luckyEnabled && decide (rand < cfg.luckyChance)) = false := by
      rw [hzero]
      have : decide (rand < (0 : ℚ)) = false :=
        decide_eq_false (not_lt.mpr hr0)
      rw [this]
      exact Bool.and_false _
    unfold assignVoucher at hok
    cases hs : selectNormal db with
    | some row =>
      rw [hs] at hok
      dsimp only at hok
      exact doAssign_lucky_none_of_nohit cfg row chatId isAdmin timeNs rand bonusPick db
        hnohit hok
    | none =>
      rw [hs] at hok
      dsimp only at hok
      cases hs2 : selectNormal (createVoucherGroup upN db) with
      | some row =>
        rw [hs2] at hok
        dsimp only at hok
        exact doAssign_lucky_none_of_nohit cfg row chatId isAdmin timeNs rand bonusPick
          (createVoucherGroup upN db) hnohit hok
      | none =>
        rw [hs2] at hok
        dsimp only at hok
        simp only [Except.ok.injEq, Prod.mk.injEq] at hok
        exact hok.2.1.symm
  · intro np l d he hone hne hok
    have hhit : decide (rand < cfg.luckyChance) = true := by
      rw [hone]
      exact decide_eq_true hr1
    unfold assignVoucher at hok
    cases hs : selectNormal db with
    | some row =>
      rw [hs] at hok
      dsimp only at hok
      exact doAssign_lucky_isSome cfg row chatId isAdmin timeNs rand bonusPick db hs hok
        he hhit hne
    | none =>
      rw [hs] at hok
      dsimp only at hok
      cases hs2 : selectNormal (createVoucherGroup upN db) with
      | some row =>
        rw [hs2] at hok
        dsimp only at hok
        have hne2 : eligibleBonus (createVoucherGroup upN db) ≠ [] := by
          rw [eligibleBonus_createVoucherGroup]
          exact hne
        exact doAssign_lucky_isSome cfg row chatId isAdmin timeNs rand bonusPick
          (createVoucherGroup upN db) hs2 hok he hhit hne2
      | none =>
        rw [hs2] at hok
        dsimp only at hok
        simp at hok
  · intro row db2 he hhit hempty hsel hu
    unfold assignVoucher
    rw [hsel]
    dsimp only
    unfold doAssign
    rw [hu]
    dsimp only
    rw [if_pos (by rw [he, hhit]; rfl)]
    have helig : eligibleBonus db2 = eligibleBonus db :=
      eligibleBonus_after_normal_update row (mkTag chatId isAdmin timeNs) db db2 hsel hu
    rw [helig, hempty]
    rfl

/-- Witness for claim C7 on a store holding one free normal and one
free bonus code, probability one: the bonus code is reserved. -/
theorem bonus_draw_probability_bounds_witness :
    eligibleBonus dbLucky ≠ [] ∧
    (some (("LNURLB".toList, "L2".toList)) : Option (Str × Str)).isSome = true :=
  ⟨by decide,
    (bonus_draw_probability_bounds cfgLucky none ("7".toList) false 0 0 0 dbLucky
        (by norm_num) (by norm_num)).2.1
      ("LNURLA".toList, "L1".toList) (some (("LNURLB".toList, "L2".toList))) dbLuckyDone
      rfl rfl (by decide) (by rfl)⟩

/-! ### Audit-table preservation lemmas -/

/-- Inserting a voucher row never touches the audit table. -/
theorem luckyWins_insert (l linkId : Str) (b : Bool) (db : DB) :
    ((insertVoucher l linkId b db).1).lucky_wins = db.lucky_wins := by
  unfold insertVoucher
  split <;> rfl

/-- Bulk insertion never touches the audit table. -/
theorem luckyWins_save (b : Bool) (L : List Str) (linkId : Str) (db : DB) :
    ((saveLnurls b L linkId db).1).lucky_wins = db.lucky_wins := by
  induction L generalizing db with
  | nil => rfl
  | cons l rest ih =>
    simp only [saveLnurls]
    rw [ih, luckyWins_insert]

/-- Normal replenishment never touches the audit table. -/
theorem luckyWins_createVoucherGroup (up : Option (Str × Str)) (db : DB) :
    (createVoucherGroup up db).lucky_wins = db.lucky_wins := by
  cases up with
  | none => rfl
  | some p =>
    simp only [createVoucherGroup]
    split
    · rfl
    · rw [luckyWins_save]

/-- Bonus replenishment never touches the audit table. -/
theorem luckyWins_createLuckyVouchers (cfg : Config) (up : Option (Str × Str)) (db : DB) :
    (createLuckyVouchers cfg up db).lucky_wins = db.lucky_wins := by
  unfold createLuckyVouchers
  split
  · rfl
  · cases up with
    | none => rfl
    | some p =>
      dsimp only
      split
      · rfl
      · rw [luckyWins_save]

/-- The supply check never touches the audit table. -/
theorem luckyWins_checkSupply (cfg : Config) (upN upB : Option (Str × Str)) (db : DB) :
    ((checkVoucherSupply cfg upN upB db).1).lucky_wins = db.lucky_wins := by
  unfold checkVoucherSupply checkBonusSupply
  by_cases hn : countFreeNormal db < max 10 (cfg.batchSize / 10)
  · rw [if_pos hn]
    dsimp only
    split
    · split
      · rw [luckyWins_createLuckyVouchers, luckyWins_createVoucherGroup]
      · rw [luckyWins_createVoucherGroup]
    · rw [luckyWins_createVoucherGroup]
  · rw [if_neg hn]
    dsimp only
    split
    · split
      · rw [luckyWins_createLuckyVouchers]
      · rfl
    · rfl

/-- A successful assignment write never touches the audit table. -/
theorem luckyWins_updateAssign (l tag : Str) (db db2 : DB)
    (h : updateAssign l tag db = .ok db2) : db2.lucky_wins = db.lucky_wins := by
  rw [(updateAssign_ok_elim l tag db db2 h).1]
  rfl

/-- A successful `doAssign` never touches the audit table. -/
theorem luckyWins_doAssign (cfg : Config) (row : VoucherRow) (chatId : Str)
    (isAdmin : Bool) (timeNs : Nat) (rand : ℚ) (bonusPick : Nat) (db : DB)
    {n l : Option (Str × Str)} {d : DB}
    (h : doAssign cfg row chatId isAdmin timeNs rand bonusPick db = .ok (n, l, d)) :
    d.lucky_wins = db.lucky_wins := by
  unfold doAssign at h
  cases hu : updateAssign row.lnurl (mkTag chatId isAdmin timeNs) db with
  | error e => rw [hu] at h; exact Except.noConfusion h
  | ok db2 =>
    rw [hu] at h
    dsimp only at h
    have hw2 := luckyWins_updateAssign _ _ _ _ hu
    split at h
    · cases hg : (eligibleBonus db2).get? (bonusPick % max (eligibleBonus db2).length 1) with
      | none =>
        rw [hg] at h
        dsimp only at h
        simp only [Except.ok.injEq, Prod.mk.injEq] at h
        rw [← h.2.2, hw2]
      | some lrow =>
        rw [hg] at h
        dsimp only at h
        cases hu2 : updateAssign lrow.lnurl (mkTag chatId isAdmin timeNs ++ bonusSuffix) db2 with
        | error e2 => rw [hu2] at h; exact Except.noConfusion h
        | ok db3 =>
          rw [hu2] at h
          simp only [Except.ok.injEq, Prod.mk.injEq] at h
          rw [← h.2.2, luckyWins_updateAssign _ _ _ _ hu2, hw2]
    · simp only [Except.ok.injEq, Prod.mk.injEq] at h
      rw [← h.2.2, hw2]

/-- A successful allocation never touches the audit table. -/
theorem luckyWins_assignVoucher (cfg : Config) (upN : Option (Str × Str)) (chatId : Str)
    (isAdmin : Bool) (timeNs : Nat) (rand : ℚ) (bonusPick : Nat) (db : DB)
    {n l : Option (Str × Str)} {d : DB}
    (h : (assignVoucher cfg upN chatId isAdmin timeNs rand bonusPick db).1 = .ok (n, l, d)) :
    d.lucky_wins = db.lucky_wins := by
  unfold assignVoucher at h
  cases hs : selectNormal db with
  | some row =>
    rw [hs] at h
    dsimp only at h
    exact luckyWins_doAssign cfg row chatId isAdmin timeNs rand bonusPick db h
  | none =>
    rw [hs] at h
    dsimp only at h
    cases hs2 : selectNormal (createVoucherGroup upN db) with
    | some row =>
      rw [hs2] at h
      dsimp only at h
      rw [luckyWins_doAssign cfg row chatId isAdmin timeNs rand bonusPick
        (createVoucherGroup upN db) h]
      exact luckyWins_createVoucherGroup upN db
    | none =>
      rw [hs2] at h
      dsimp only at h
      simp only [Except.ok.injEq, Prod.mk.injEq] at h
      rw [← h.2.2]
      exact luckyWins_createVoucherGroup upN db

/-- A normal delivery changes nothing in the store. -/
theorem sendVoucher_normal_id (cfg : Config) (lnurl chatId username : Str) (db : DB) :
    (sendVoucher cfg lnurl chatId username false db).1 = db := by
  unfold sendVoucher
  split
  · rfl
  · rfl

/-- A bonus delivery appends exactly one audit row when the code passes
the delivery validation, and nothing otherwise. -/
theorem sendVoucher_bonus_luckyWins (cfg : Config) (lnurl chatId username : Str) (db : DB) :
    ((sendVoucher cfg lnurl chatId username true db).1).lucky_wins =
      db.lucky_wins ++
        (if deliveryValid lnurl = true then [⟨chatId, username, cfg.luckyAmount⟩] else []) := by
  unfold sendVoucher
  by_cases hd : deliveryValid lnurl = true
  · rw [if_neg (by rw [hd]; simp), if_pos hd]
    rfl
  · have hd' : deliveryValid lnurl = false := by simpa using hd
    rw [if_pos (by rw [hd']; rfl), if_neg hd]
    simp

/-- Claim C9 (amended: the audit row is written at delivery time and
only for a bonus code passing the delivery validation): on every
successful claim the audit table only grows, by exactly one row when a
bonus code was reserved and passes the delivery-time format validation
and by nothing otherwise; and the cleanup sweep never touches it. -/
theorem lucky_win_append_iff_valid_bonus (cfg : Config) (upN upB : Option (Str × Str))
    (chatId username : Str) (isAdmin : Bool) (timeNs : Nat) (rand : ℚ) (bonusPick : Nat)
    (db : DB) :
    (∀ out db',
      handleClaim cfg upN upB chatId username isAdmin timeNs rand bonusPick db =
        .ok (out, db') →
      ∃ new, db'.lucky_wins = db.lucky_wins ++ new ∧
        new.length = (match out with
          | .issued _ (some lp) => if deliveryValid lp.1 then 1 else 0
          | _ => 0)) ∧
    ((cleanDatabase db).1).lucky_wins = db.lucky_wins := by
  refine ⟨?_, rfl⟩
  intro out db' h
  unfold handleClaim at h
  split at h
  · simp only [Except.ok.injEq, Prod.mk.injEq] at h
    refine ⟨[], ?_, ?_⟩
    · rw [← h.2]
      simp
    · rw [← h.1]
      rfl
  · cases ha : (assignVoucher cfg upN chatId isAdmin timeNs rand bonusPick db).1 with
    | error e => rw [ha] at h; exact Except.noConfusion h
    | ok trip =>
      obtain ⟨optN, lucky, db1⟩ := trip
      have hw1 : db1.lucky_wins = db.lucky_wins :=
        luckyWins_assignVoucher cfg upN chatId isAdmin timeNs rand bonusPick db ha
      rw [ha] at h
      cases optN with
      | none =>
        dsimp only at h
        simp only [Except.ok.injEq, Prod.mk.injEq] at h
        refine ⟨[], ?_, ?_⟩
        · rw [← h.2, luckyWins_checkSupply, hw1]
          simp
        · rw [← h.1]
          rfl
      | some np =>
        dsimp only at h
        simp only [Except.ok.injEq, Prod.mk.injEq] at h
        cases lucky with
        | none =>
          refine ⟨[], ?_, ?_⟩
          · rw [← h.2, luckyWins_checkSupply]
            unfold bonusDelivery
            rw [sendVoucher_normal_id, hw1]
            simp
          · rw [← h.1]
            rfl
        | some lp =>
          refine ⟨if deliveryValid lp.1 = true
              then [⟨chatId, username, cfg.luckyAmount⟩] else [], ?_, ?_⟩
          · rw [← h.2, luckyWins_checkSupply]
            unfold bonusDelivery
            rw [sendVoucher_bonus_luckyWins, sendVoucher_normal_id, hw1]
          · rw [← h.1]
            by_cases hd : deliveryValid lp.1 = true
            · rw [if_pos hd]
              simp [hd]
            · have hd' : deliveryValid lp.1 = false := by simpa using hd
              rw [if_neg hd]
              simp [hd']

/-- Witness for claim C9 on the lucky store: the valid bonus code is
reserved and exactly one audit row appears. -/
theorem lucky_win_append_iff_valid_bonus_witness :
    dbLuckyFinal.lucky_wins.length = dbLucky.lucky_wins.length + 1 := by
  obtain ⟨new, h1, h2⟩ := (lucky_win_append_iff_valid_bonus cfgLucky none none ("7".toList)
    ("u".toList) false 0 0 0 dbLucky).1
    (.issued ("LNURLA".toList, "L1".toList) (some ("LNURLB".toList, "L2".toList)))
    dbLuckyFinal (by rfl)
  rw [h1, List.length_append, h2]
  rfl

/-- Counterexample to claim C9 as stated: a bonus code is reserved for
the claim, yet no audit row is written, because the reserved code fails
the delivery-time validation. -/
theorem lucky_win_missing_for_invalid_bonus :
    handleClaim cfgLucky none none ("7".toList) ("u".toList) false 0 0 0 dbBadBonus =
      .ok (.issued ("LNURLA".toList, "L1".toList)
        (some ("LNURL!AAA".toList, "L2".toList)), dbBadBonusDone) ∧
    dbBadBonusDone.lucky_wins = [] ∧
    dbBadBonusDone.vouchers.any
      (fun r => r.bonus && !(r.assigned_to == none)) = true := by
  refine ⟨by rfl, rfl, by decide⟩

/-! ### Prefix-filter lemmas -/

/-- Any bonus code reserved by `doAssign` carries the prefix: it was
selected through the prefix-filtered bonus query. -/
theorem doAssign_lucky_like (cfg : Config) (row : VoucherRow) (chatId : Str)
    (isAdmin : Bool) (timeNs : Nat) (rand : ℚ) (bonusPick : Nat) (db : DB)
    {n l : Option (Str × Str)} {d : DB}
    (h : doAssign cfg row chatId isAdmin timeNs rand bonusPick db = .ok (n, l, d)) :
    ∀ lp, l = some lp → likeLNURL lp.1 = true := by
  intro lp hlp
  unfold doAssign at h
  cases hu : updateAssign row.lnurl (mkTag chatId isAdmin timeNs) db with
  | error e => rw [hu] at h; exact Except.noConfusion h
  | ok db2 =>
    rw [hu] at h
    dsimp only at h
    split at h
    · cases hg : (eligibleBonus db2).get? (bonusPick % max (eligibleBonus db2).length 1) with
      | none =>
        rw [hg] at h
        dsimp only at h
        simp only [Except.ok.injEq, Prod.mk.injEq] at h
        rw [hlp] at h
        exact Option.noConfusion h.2.1
      | some lrow =>
        rw [hg] at h
        dsimp only at h
        cases hu2 : updateAssign lrow.lnurl (mkTag chatId isAdmin timeNs ++ bonusSuffix) db2 with
        | error e2 => rw [hu2] at h; exact Except.noConfusion h
        | ok db3 =>
          rw [hu2] at h
          simp only [Except.ok.injEq, Prod.mk.injEq] at h
          have hmem : lrow ∈ eligibleBonus db2 := List.get?_mem hg
          have hp : freeBonusP lrow = true := (List.mem_filter.mp hmem).2
          simp only [freeBonusP, Bool.and_eq_true] at hp
          have hlp1 : lp.1 = lrow.lnurl := by
            rw [hlp] at h
            rw [← (Option.some.injEq _ _).mp h.2.1]
          rw [hlp1]
          exact hp.2
    · simp only [Except.ok.injEq, Prod.mk.injEq] at h
      rw [hlp] at h
      exact Option.noConfusion h.2.1

/-- Claim C10 (amended: stock selection and counting filter only on the
case-insensitive code prefix, so a prefixed but otherwise malformed
code can still be counted and reserved; full-format protection comes at
delivery): every code issued by the allocator, normal or bonus, carries
the prefix; a row without the prefix changes none of the free or used
counts; and a code is delivered only when it passes the delivery-time
full-format validation. -/
theorem lnurl_filter_and_delivery_revalidation (cfg : Config) (upN : Option (Str × Str))
    (chatId : Str) (isAdmin : Bool) (timeNs : Nat) (rand : ℚ) (bonusPick : Nat) (db : DB) :
    (∀ np l d,
      (assignVoucher cfg upN chatId isAdmin timeNs rand bonusPick db).1 =
        .ok (some np, l, d) →
      likeLNURL np.1 = true ∧ ∀ lp, l = some lp → likeLNURL lp.1 = true) ∧
    (∀ r : VoucherRow, likeLNURL r.lnurl = false →
      countFreeNormal ⟨db.vouchers ++ [r], db.lucky_wins⟩ = countFreeNormal db ∧
      countFreeBonus ⟨db.vouchers ++ [r], db.lucky_wins⟩ = countFreeBonus db ∧
      countUsedNormal ⟨db.vouchers ++ [r], db.lucky_wins⟩ = countUsedNormal db ∧
      countUsedBonus ⟨db.vouchers ++ [r], db.lucky_wins⟩ = countUsedBonus db) ∧
    (∀ lnurl chatId2 username b,
      (sendVoucher cfg lnurl chatId2 username b db).2 = true →
      deliveryValid lnurl = true) := by
  refine ⟨?_, ?_, ?_⟩
  · intro np l d h
    unfold assignVoucher at h
    cases hs : selectNormal db with
    | some row =>
      rw [hs] at h
      dsimp only at h
      have hnp := doAssign_ok_normal cfg row chatId isAdmin timeNs rand bonusPick db h
      have hrowp : freeNormalP row = true := List.find?_some hs
      simp only [freeNormalP, Bool.and_eq_true] at hrowp
      refine ⟨?_, doAssign_lucky_like cfg row chatId isAdmin timeNs rand bonusPick db h⟩
      rw [(Option.some.injEq _ _).mp hnp]
      exact hrowp.2
    | none =>
      rw [hs] at h
      dsimp only at h
      cases hs2 : selectNormal (createVoucherGroup upN db) with
      | some row =>
        rw [hs2] at h
        dsimp only at h
        have hnp := doAssign_ok_normal cfg row chatId isAdmin timeNs rand bonusPick
          (createVoucherGroup upN db) h
        have hrowp : freeNormalP row = true := List.find?_some hs2
        simp only [freeNormalP, Bool.and_eq_true] at hrowp
        refine ⟨?_, doAssign_lucky_like cfg row chatId isAdmin timeNs rand bonusPick
          (createVoucherGroup upN db) h⟩
        rw [(Option.some.injEq _ _).mp hnp]
        exact hrowp.2
      | none =>
        rw [hs2] at h
        dsimp only at h
        simp at h
  · intro r hr
    refine ⟨?_, ?_, ?_, ?_⟩ <;>
      simp [countFreeNormal, countFreeBonus, countUsedNormal, countUsedBonus,
        eligibleBonus, freeNormalP, freeBonusP, List.filter_append, hr]
  · intro lnurl chatId2 username b h
    by_cases hd : deliveryValid lnurl = true
    · exact hd
    · exfalso
      have hd' : deliveryValid lnurl = false := by simpa using hd
      unfold sendVoucher at h
      rw [if_pos (by rw [hd']; rfl)] at h
      exact Bool.false_ne_true h

/-- Witness for claim C10: the code issued on the malformed-store run
carries the prefix. -/
theorem lnurl_filter_and_delivery_revalidation_witness :
    likeLNURL ("LNURL!!!".toList) = true :=
  ((lnurl_filter_and_delivery_revalidation cfgPlain none ("9".toList) false 0 0 0
      dbMalformed).1
    ("LNURL!!!".toList, "L1".toList) none dbMalformedDone (by rfl)).1

/-- Counterexample to claim C10 as stated: a malformed code that
carries the prefix is counted as free stock and reserved by the
allocator; only delivery rejects it. -/
theorem malformed_prefixed_code_counted_and_issued :
    countFreeNormal dbMalformed = 1 ∧
    deliveryValid ("LNURL!!!".toList) = false ∧
    (assignVoucher cfgPlain none ("9".toList) false 0 0 0 dbMalformed).1 =
      .ok (some ("LNURL!!!".toList, "L1".toList), none, dbMalformedDone) :=
  ⟨by decide, by decide, by rfl⟩

/-! ### Extractor lemmas -/

/-- Membership in the first-seen deduplication. -/
theorem mem_dedupFirstAux {α : Type} [DecidableEq α] (l : List α) :
    ∀ (seen : List α) (x : α), x ∈ dedupFirstAux l seen ↔ x ∈ l ∧ x ∉ seen := by
  induction l with
  | nil => intro seen x; simp [dedupFirstAux]
  | cons a as ih =>
    intro seen x
    by_cases ha : a ∈ seen
    · rw [dedupFirstAux, if_pos ha, ih]
      constructor
      · rintro ⟨h1, h2⟩
        exact ⟨List.mem_cons_of_mem a h1, h2⟩
      · rintro ⟨h1, h2⟩
        cases List.mem_cons.mp h1 with
        | inl h3 => exact absurd (h3.symm ▸ ha) h2
        | inr h3 => exact ⟨h3, h2⟩
    · rw [dedupFirstAux, if_neg ha]
      constructor
      · intro hmem
        cases List.mem_cons.mp hmem with
        | inl h3 =>
          subst h3
          exact ⟨List.mem_cons_self x as, ha⟩
        | inr h3 =>
          obtain ⟨h4, h5⟩ := (ih (a :: seen) x).mp h3
          exact ⟨List.mem_cons_of_mem a h4,
            fun hs => h5 (List.mem_cons_of_mem a hs)⟩
      · rintro ⟨h1, h2⟩
        by_cases hx : x = a
        · subst hx
          exact List.mem_cons_self x _
        · cases List.mem_cons.mp h1 with
          | inl h3 => exact absurd h3 hx
          | inr h3 =>
            refine List.mem_cons_of_mem a ((ih (a :: seen) x).mpr ⟨h3, ?_⟩)
            intro hs
            cases List.mem_cons.mp hs with
            | inl h4 => exact hx h4
            | inr h4 => exact h2 h4

/-- The first-seen deduplication has no duplicates. -/
theorem nodup_dedupFirstAux {α : Type} [DecidableEq α] (l : List α) :
    ∀ seen : List α, (dedupFirstAux l seen).Nodup := by
  induction l with
  | nil => intro seen; exact List.nodup_nil
  | cons a as ih =>
    intro seen
    by_cases ha : a ∈ seen
    · rw [dedupFirstAux, if_pos ha]
      exact ih seen
    · rw [dedupFirstAux, if_neg ha]
      refine List.nodup_cons.mpr ⟨?_, ih (a :: seen)⟩
      intro hmem
      exact ((mem_dedupFirstAux as (a :: seen) a).mp hmem).2 (List.mem_cons_self a seen)

/-- The first-seen deduplication preserves order: it is a sublist. -/
theorem sublist_dedupFirstAux {α : Type} [DecidableEq α] (l : List α) :
    ∀ seen : List α, (dedupFirstAux l seen).Sublist l := by
  induction l with
  | nil => intro seen; simp [dedupFirstAux]
  | cons a as ih =>
    intro seen
    by_cases ha : a ∈ seen
    · rw [dedupFirstAux, if_pos ha]
      exact (ih seen).trans (List.sublist_cons_self a as)
    · rw [dedupFirstAux, if_neg ha]
      exact (ih (a :: seen)).cons₂ a

/-- Membership in the extractor output. -/
theorem mem_extract_iff (input c : Str) :
    c ∈ extract_lnurls_from_response input ↔
      c ∈ extractCandidates input ∧ validFinal c = true := by
  unfold extract_lnurls_from_response dedupFirst
  rw [mem_dedupFirstAux]
  simp [List.mem_filter]

/-- Everything the whole-text scan returns occurs inside the scanned
text. -/
theorem scanFind_sound : ∀ (s : Str) (b : Bool) (x : Str),
    x ∈ scanFind s b → ∃ pre suf, s = pre ++ (x ++ suf) := by
  intro s b
  induction s, b using scanFind.induct with
  | case1 =>
    intro x hx
    rw [scanFind] at hx
    cases hx
  | case2 c rest prevWord h1 h2 ih =>
    intro x hx
    rw [scanFind, if_pos h1, if_pos h2] at hx
    have hpre : LNURLmark.isPrefixOf (c :: rest) = true := by
      have h1' := h1
      rw [Bool.and_eq_true] at h1'
      exact h1'.2
    obtain ⟨t, ht⟩ := List.isPrefixOf_iff_prefix.mp hpre
    have hlen : LNURLmark.length = 5 := rfl
    have hdrop : List.drop 5 (c :: rest) = t := by
      rw [← ht, ← hlen, List.drop_left]
    rw [hdrop] at hx ih
    have hsplit : List.takeWhile isClassB t ++ List.dropWhile isClassB t = t :=
      List.takeWhile_append_dropWhile _ _
    cases List.mem_cons.mp hx with
    | inl hx1 =>
      refine ⟨[], List.dropWhile isClassB t, ?_⟩
      rw [hx1]
      rw [List.nil_append, List.append_assoc, hsplit]
      exact ht.symm
    | inr hx2 =>
      obtain ⟨pre, suf, hps⟩ := ih x hx2
      refine ⟨LNURLmark ++ List.takeWhile isClassB t ++ pre, suf, ?_⟩
      calc c :: rest = LNURLmark ++ t := ht.symm
        _ = LNURLmark ++ (List.takeWhile isClassB t ++ List.dropWhile isClassB t) := by
              rw [hsplit]
        _ = LNURLmark ++ (List.takeWhile isClassB t ++ (pre ++ (x ++ suf))) := by
              rw [hps]
        _ = (LNURLmark ++ List.takeWhile isClassB t ++ pre) ++ (x ++ suf) := by
              simp [List.append_assoc]
  | case3 c rest prevWord h1 h2 ih =>
    intro x hx
    rw [scanFind, if_pos h1, if_neg h2] at hx
    obtain ⟨pre, suf, hps⟩ := ih x hx
    exact ⟨c :: pre, suf, by rw [List.cons_append, hps]⟩
  | case4 c rest prevWord h1 ih =>
    intro x hx
    rw [scanFind, if_neg h1] at hx
    obtain ⟨pre, suf, hps⟩ := ih x hx
    exact ⟨c :: pre, suf, by rw [List.cons_append, hps]⟩

/-- Line-mode membership: a code is extracted exactly when some line,
stripped, literally begins with the uppercase marker and uppercases to
a full pattern match of sufficient length. -/
theorem extract_line_mode_iff (input c : Str)
    (hm : hasHtmlMarkers (stripStr input) = false) :
    c ∈ extract_lnurls_from_response input ↔
      ∃ raw ∈ splitlines (stripStr input),
        LNURLmark.isPrefixOf (stripStr raw) = true ∧
        reFullMatchLNURL ((stripStr raw).map Char.toUpper) = true ∧
        50 ≤ (stripStr raw).length ∧
        c = (stripStr raw).map Char.toUpper := by
  rw [mem_extract_iff]
  unfold extractCandidates
  rw [if_neg (by rw [hm]; exact Bool.false_ne_true)]
  rw [List.mem_filterMap]
  constructor
  · rintro ⟨⟨raw, hraw, hacc⟩, hval⟩
    simp only [acceptLine] at hacc
    split at hacc
    · rename_i hcond
      have hc := (Option.some.injEq _ _).mp hacc
      rw [Bool.and_eq_true] at hcond
      obtain ⟨hp, hr⟩ := hcond
      refine ⟨raw, hraw, hp, hr, ?_, hc.symm⟩
      simp only [validFinal, Bool.and_eq_true, decide_eq_true_eq] at hval
      have := hval.1
      rw [← hc] at this
      simpa using this
    · exact Option.noConfusion hacc
  · rintro ⟨raw, hraw, hp, hr, hlen, hc⟩
    constructor
    · refine ⟨raw, hraw, ?_⟩
      simp only [acceptLine]
      rw [if_pos (by rw [hp, hr]; rfl)]
      rw [hc]
    · simp only [validFinal, Bool.and_eq_true, decide_eq_true_eq]
      subst hc
      exact ⟨by simpa using hlen, hr⟩

/-- Claim C5 (amended: in line mode the prefix check on a line is
case-sensitive — the stripped line must literally begin with the
uppercase marker — while markup mode scans the uppercased whole text;
output codes are uppercase, full-format, and of total length at least
fifty): the extractor output is duplicate-free, order-preserving over
the candidate scan, every returned code fully matches the format with
total length at least fifty, line-mode membership is exactly the
literal-prefix rule above, and in markup mode every returned code
occurs inside the uppercased stripped text. -/
theorem extract_characterization (input : Str) :
    (extract_lnurls_from_response input).Nodup ∧
    (∀ c ∈ extract_lnurls_from_response input,
      50 ≤ c.length ∧ reFullMatchLNURL c = true) ∧
    (extract_lnurls_from_response input).Sublist (extractCandidates input) ∧
    (hasHtmlMarkers (stripStr input) = false →
      ∀ c, c ∈ extract_lnurls_from_response input ↔
        ∃ raw ∈ splitlines (stripStr input),
          LNURLmark.isPrefixOf (stripStr raw) = true ∧
          reFullMatchLNURL ((stripStr raw).map Char.toUpper) = true ∧
          50 ≤ (stripStr raw).length ∧
          c = (stripStr raw).map Char.toUpper) ∧
    (hasHtmlMarkers (stripStr input) = true →
      ∀ c ∈ extract_lnurls_from_response input,
        ∃ pre suf, (stripStr input).map Char.toUpper = pre ++ (c ++ suf)) := by
  refine ⟨nodup_dedupFirstAux _ _, ?_, ?_, ?_, ?_⟩
  · intro c hc
    have hv := ((mem_extract_iff input c).mp hc).2
    simp only [validFinal, Bool.and_eq_true, decide_eq_true_eq] at hv
    exact hv
  · exact (sublist_dedupFirstAux _ _).trans (List.filter_sublist _)
  · intro hm c
    exact extract_line_mode_iff input c hm
  · intro hm c hc
    have hcand := ((mem_extract_iff input c).mp hc).1
    unfold extractCandidates at hcand
    rw [if_pos hm] at hcand
    exact scanFind_sound _ _ c hcand

/-- Witness for claim C5 on a line-mode input: the single uppercase
valid line is extracted. -/
theorem extract_characterization_witness :
    ('L' :: 'N' :: 'U' :: 'R' :: 'L' :: List.replicate 50 'A') ∈
      extract_lnurls_from_response ('L' :: 'N' :: 'U' :: 'R' :: 'L' ::
        List.replicate 50 'A') := by
  refine ((extract_characterization ('L' :: 'N' :: 'U' :: 'R' :: 'L' ::
    List.replicate 50 'A')).2.2.2.1 (by decide) _).mpr ?_
  refine ⟨'L' :: 'N' :: 'U' :: 'R' :: 'L' :: List.replicate 50 'A', by decide, by decide,
    by decide, by decide, by decide⟩

/-- Counterexample to claim C5 as stated: a line matching the format
rule case-insensitively, with an alphanumeric payload of fifty
characters, is rejected by the extractor because its prefix is
lowercase. -/
theorem extract_misses_lowercase_line :
    specFormatRule lineLowercase = true ∧
    extract_lnurls_from_response lineLowercase = [] := by
  exact ⟨by decide, by decide⟩

end BoltFaucet
